import Mathlib

/-!
# Verification of the Apate Layer-0 deception front-end (rust-protocol crate)

Shallow embedding of the hot-path components of `src/rust-protocol/src/`:
the protocol classifier, canned responses, 3-lane router, `Layer0Output`
score accumulation, per-source rate statistics, the verdict cache, the
circuit breaker and the adaptive latency histogram.

Modelling conventions:
* bytes are `Nat`s below 256; payloads are `List Nat`;
* `u8`/`u64`/`usize` arithmetic is `Nat` with explicit saturation or
  wrap-around where the Rust code can overflow;
* atomics are modelled by plain fields with explicit state passing
  (the embedded functions return the updated structure);
* wall-clock reads (`current_time_ms`) become explicit `now` parameters;
* a Rust panic is modelled by an `Option` result (`none` = panic).
-/

namespace Apate

-- Tag bitflags (`reducers.rs`, `mod tags`).
namespace Tags

def PROBABLE_NOISE : Nat := 1
def REPEATED_PROBE : Nat := 2
def EXPLOIT_HINT : Nat := 4
def BURSTY : Nat := 8
def ODD_CADENCE : Nat := 16
def PROTO_UNKNOWN : Nat := 32

end Tags

/-- `ResponseProfile` (`reducers.rs`). -/
inductive ResponseProfile where
  | FastFake
  | SlowFake
  | Mirror
deriving DecidableEq, Repr

/-- `Protocol` (`reducers.rs`). -/
inductive Protocol where
  | SSH
  | HTTP
  | FTP
  | SMTP
  | Unknown
deriving DecidableEq, Repr

/-- `Protocol::as_str` (`reducers.rs`). -/
def Protocol.as_str : Protocol → String
  | .SSH => "ssh"
  | .HTTP => "http"
  | .FTP => "ftp"
  | .SMTP => "smtp"
  | .Unknown => "unknown"

/-- `classify_protocol_fast` (`reducers.rs`).  Byte values spell the
ASCII prefixes checked by the Rust code: `"SSH-"`, the six HTTP method
prefixes, the four FTP commands and the three SMTP commands. -/
def classify_protocol_fast (data : List Nat) : Protocol :=
  if data.length = 0 then .Unknown
  else if 4 ≤ data.length ∧ data.take 4 = [83, 83, 72, 45] then .SSH
  else if 3 ≤ data.length ∧
      (data.take 3 = [71, 69, 84] ∨ data.take 3 = [80, 79, 83] ∨
       data.take 3 = [80, 85, 84] ∨ data.take 3 = [68, 69, 76] ∨
       data.take 3 = [72, 69, 65] ∨ data.take 3 = [79, 80, 84]) then .HTTP
  else if 4 ≤ data.length ∧
      (data.take 4 = [85, 83, 69, 82] ∨ data.take 4 = [80, 65, 83, 83] ∨
       data.take 4 = [81, 85, 73, 84] ∨ data.take 4 = [82, 69, 84, 82]) then .FTP
  else if 4 ≤ data.length ∧
      (data.take 4 = [72, 69, 76, 79] ∨ data.take 4 = [69, 72, 76, 79] ∨
       data.take 4 = [77, 65, 73, 76]) then .SMTP
  else .Unknown

/-- The ordered prefix table exactly as the specification words it
(no explicit length guards: a too-short input simply fails the prefix
equality).  Used to state the refinement claim about
`classify_protocol_fast`. -/
def classify_spec_table (data : List Nat) : Protocol :=
  if data = [] then .Unknown
  else if data.take 4 = [83, 83, 72, 45] then .SSH
  else if data.take 3 = [71, 69, 84] ∨ data.take 3 = [80, 79, 83] ∨
       data.take 3 = [80, 85, 84] ∨ data.take 3 = [68, 69, 76] ∨
       data.take 3 = [72, 69, 65] ∨ data.take 3 = [79, 80, 84] then .HTTP
  else if data.take 4 = [85, 83, 69, 82] ∨ data.take 4 = [80, 65, 83, 83] ∨
       data.take 4 = [81, 85, 73, 84] ∨ data.take 4 = [82, 69, 84, 82] then .FTP
  else if data.take 4 = [72, 69, 76, 79] ∨ data.take 4 = [69, 72, 76, 79] ∨
       data.take 4 = [77, 65, 73, 76] then .SMTP
  else .Unknown

/-- `boring_failure_response` (`reducers.rs`).  The Rust function returns
byte slices of these ASCII strings. -/
def boring_failure_response : Protocol → String
  | .SSH => ""
  | .HTTP => "HTTP/1.0 400 Bad Request\r\n\r\n"
  | .FTP => "500 Syntax error, command unrecognized.\r\n"
  | .SMTP => "500 Syntax error, command unrecognized\r\n"
  | .Unknown => ""

namespace NoiseDetector

/-- `NoiseDetector::boring_noise_response` (`reducers.rs`): the Rust
`match` arms are the ranges `0..=4`, `5..=9`, `10..=14` and a catch-all. -/
def boring_noise_response (pattern_idx : Nat) : String :=
  if pattern_idx ≤ 4 then "Connection timed out\n"
  else if pattern_idx ≤ 9 then "Segmentation fault (core dumped)\n"
  else if pattern_idx ≤ 14 then "Authentication failed\n"
  else "Bad request\n"

end NoiseDetector

/-- `route_payload` (`reducers.rs`): the 3-lane router.  The protocol
argument is unused by the Rust code (`_proto`). -/
def route_payload (_proto : Protocol) (suspicion_score : Nat) (tags : Nat) :
    ResponseProfile :=
  if 50 ≤ suspicion_score ∨ tags &&& Tags.EXPLOIT_HINT ≠ 0 then .Mirror
  else if 20 ≤ suspicion_score ∨
      tags &&& (Tags.PROTO_UNKNOWN ||| Tags.ODD_CADENCE) ≠ 0 then .SlowFake
  else .FastFake

/-- `Layer0Output` (`reducers.rs`).  `suspicion_score` is a `u8` in Rust;
here a `Nat` that every operation keeps in `[0, 255]`. -/
structure Layer0Output where
  proto_guess : Protocol
  response_profile : ResponseProfile
  tags : Nat
  escalate : Bool
  suspicion_score : Nat
deriving DecidableEq, Repr

/-- `Layer0Output::new` (`reducers.rs`). -/
def Layer0Output.new (proto : Protocol) : Layer0Output :=
  { proto_guess := proto
    response_profile := .FastFake
    tags := 0
    escalate := false
    suspicion_score := 0 }

/-- `Layer0Output::add_tag` (`reducers.rs`). -/
def Layer0Output.add_tag (o : Layer0Output) (tag : Nat) : Layer0Output :=
  { o with tags := o.tags ||| tag }

/-- `u8::saturating_add` on values already in `[0, 255]`. -/
def u8_saturating_add (a b : Nat) : Nat := min (a + b) 255

/-- `Layer0Output::add_score` (`reducers.rs`): `saturating_add` on the
`u8` score. -/
def Layer0Output.add_score (o : Layer0Output) (points : Nat) : Layer0Output :=
  { o with suspicion_score := u8_saturating_add o.suspicion_score points }

/-- `RateStats` (`reducers.rs`): circular buffer of timestamps plus a
monotone write index.  The atomics become plain fields. -/
structure RateStats where
  requests : List Nat
  write_idx : Nat
  window_size : Nat
deriving DecidableEq, Repr

/-- `RateStats::new` (`reducers.rs`): a zero-filled buffer of
`window_size` slots.  Accepts `window_size = 0`. -/
def RateStats.new (window_size : Nat) : RateStats :=
  { requests := List.replicate window_size 0
    write_idx := 0
    window_size := window_size }

/-- `RateStats::record` (`reducers.rs`): stores `now` at
`write_idx % window_size` and bumps the index.  In Rust `% 0` panics
(remainder by zero); the panic is modelled by `none`. -/
def RateStats.record (s : RateStats) (now : Nat) : Option RateStats :=
  if s.window_size = 0 then none
  else
    let idx := s.write_idx % s.window_size
    some { s with
            requests := s.requests.set idx now
            write_idx := s.write_idx + 1 }

-- ============================================================================
-- Circuit breaker (`circuit_breaker.rs`), non-test constants
-- ============================================================================

def FAILURE_THRESHOLD : Nat := 10

def RESET_TIMEOUT_MS : Nat := 30000

def LATENCY_THRESHOLD_MS : Nat := 5

/-- `CircuitState` (`circuit_breaker.rs`). -/
inductive CircuitState where
  | Closed
  | Open
  | HalfOpen
deriving DecidableEq, Repr

/-- `CircuitBreaker` (`circuit_breaker.rs`): the three atomics become
plain fields, state passing is explicit. -/
structure CircuitBreaker where
  state : CircuitState
  failure_count : Nat
  last_failure_time : Nat
deriving DecidableEq, Repr

namespace CircuitBreaker

/-- `CircuitBreaker::new` (`circuit_breaker.rs`). -/
def new : CircuitBreaker :=
  { state := .Closed, failure_count := 0, last_failure_time := 0 }

/-- `CircuitBreaker::trip_circuit` (`circuit_breaker.rs`); the wall-clock
read becomes the `now` parameter. -/
def trip_circuit (cb : CircuitBreaker) (now : Nat) : CircuitBreaker :=
  { cb with state := .Open, last_failure_time := now }

/-- `CircuitBreaker::reset_circuit` (`circuit_breaker.rs`). -/
def reset_circuit (cb : CircuitBreaker) : CircuitBreaker :=
  { cb with state := .Closed, failure_count := 0 }

/-- `CircuitBreaker::handle_failure` (`circuit_breaker.rs`).  In `Closed`,
`fetch_add` returns the old count, so the compared value is `old + 1`. -/
def handle_failure (cb : CircuitBreaker) (now : Nat) : CircuitBreaker :=
  match cb.state with
  | .Closed =>
      let count := cb.failure_count + 1
      let cb' := { cb with failure_count := count }
      if FAILURE_THRESHOLD ≤ count then cb'.trip_circuit now else cb'
  | .HalfOpen => cb.trip_circuit now
  | .Open => { cb with last_failure_time := now }

/-- `CircuitBreaker::handle_success` (`circuit_breaker.rs`). -/
def handle_success (cb : CircuitBreaker) : CircuitBreaker :=
  match cb.state with
  | .HalfOpen => cb.reset_circuit
  | .Closed => { cb with failure_count := 0 }
  | .Open => cb

/-- `CircuitBreaker::record_result` (`circuit_breaker.rs`): a duration
above `LATENCY_THRESHOLD_MS` is a failure, otherwise a success. -/
def record_result (cb : CircuitBreaker) (duration_ms now : Nat) : CircuitBreaker :=
  if LATENCY_THRESHOLD_MS < duration_ms then cb.handle_failure now
  else cb.handle_success

/-- `CircuitBreaker::check_allow` (`circuit_breaker.rs`).  Returns the
decision together with the updated breaker; in the sequential model the
`compare_exchange` from `Open` always finds the expected value and hence
succeeds (the caller wins the CAS). -/
def check_allow (cb : CircuitBreaker) (now : Nat) : Bool × CircuitBreaker :=
  match cb.state with
  | .Closed => (true, cb)
  | .Open =>
      if cb.last_failure_time + RESET_TIMEOUT_MS ≤ now then
        (true, { cb with state := .HalfOpen })
      else (false, cb)
  | .HalfOpen => (true, cb)

/-- `CircuitBreaker::get_state_name` (`circuit_breaker.rs`). -/
def get_state_name (cb : CircuitBreaker) : String :=
  match cb.state with
  | .Closed => "Closed"
  | .Open => "Open"
  | .HalfOpen => "HalfOpen"

end CircuitBreaker

-- ============================================================================
-- Verdict cache (`reducers.rs`)
-- ============================================================================

/-- `Verdict` (`reducers.rs`). -/
inductive Verdict where
  | Boring
  | NeedsL1
  | KnownNoise
deriving DecidableEq, Repr

/-- Wrap-around `u64` subtraction: the Rust expression `now - timestamp`
on `u64` (release-mode two's-complement wrap). -/
def u64_sub (a b : Nat) : Nat :=
  (a % 2 ^ 64 + 2 ^ 64 - b % 2 ^ 64) % 2 ^ 64

/-- `VerdictCache` (`reducers.rs`): the `HashMap<u64, (Verdict, u64)>` is
modelled as an association list `key ↦ (verdict, timestamp)`; the mutex
disappears in the sequential model. -/
structure VerdictCache where
  cache : List (Nat × Verdict × Nat)
  max_size : Nat
  ttl_ms : Nat
deriving DecidableEq, Repr

namespace VerdictCache

/-- `VerdictCache::new` (`reducers.rs`). -/
def new (max_size ttl_ms : Nat) : VerdictCache :=
  { cache := [], max_size := max_size, ttl_ms := ttl_ms }

/-- `VerdictCache::get` (`reducers.rs`): fresh entries are returned, stale
entries (`now - ts ≥ ttl_ms`) are removed and `none` is returned. -/
def get (c : VerdictCache) (key now : Nat) : Option Verdict × VerdictCache :=
  match c.cache.lookup key with
  | some (verdict, timestamp) =>
      if u64_sub now timestamp < c.ttl_ms then (some verdict, c)
      else (none, { c with cache := c.cache.filter (fun e => e.1 ≠ key) })
  | none => (none, c)

/-- The entry `min_by_key` finds: smallest timestamp, first of equals
(the `HashMap` iteration order is unspecified; the model uses list
order). -/
def oldest_entry : List (Nat × Verdict × Nat) → Option (Nat × Verdict × Nat)
  | [] => none
  | e :: es =>
      match oldest_entry es with
      | none => some e
      | some e' => if e.2.2 ≤ e'.2.2 then some e else some e'

/-- `VerdictCache::set` (`reducers.rs`): evict the oldest entry when at
capacity, then insert with the current time (`HashMap::insert` replaces
an existing key). -/
def set (c : VerdictCache) (key : Nat) (verdict : Verdict) (now : Nat) :
    VerdictCache :=
  let evicted :=
    if c.max_size ≤ c.cache.length then
      match oldest_entry c.cache with
      | some e => c.cache.filter (fun x => x.1 ≠ e.1)
      | none => c.cache
    else c.cache
  { c with cache := evicted.filter (fun x => x.1 ≠ key) ++ [(key, verdict, now)] }

/-- One client-visible cache operation. -/
inductive Op where
  | get (key now : Nat)
  | set (key : Nat) (verdict : Verdict) (now : Nat)
deriving DecidableEq, Repr

/-- Apply one operation to the cache. -/
def apply_op (c : VerdictCache) : Op → VerdictCache
  | .get key now => (c.get key now).2
  | .set key verdict now => c.set key verdict now

end VerdictCache

-- ============================================================================
-- Adaptive circuit breaker (`reducers.rs`)
-- ============================================================================

/-- `ProfileFlags` (`reducers.rs`). -/
structure ProfileFlags where
  drop_enabled : Bool
  bloom_drop : Bool
  benign_sampling : Bool
  latency_adaptive_security : Bool
deriving DecidableEq, Repr

/-- `ProfileFlags::HOME` (`reducers.rs`). -/
def ProfileFlags.HOME : ProfileFlags :=
  { drop_enabled := false, bloom_drop := false
    benign_sampling := false, latency_adaptive_security := false }

/-- `ProfileFlags::ENTERPRISE` (`reducers.rs`). -/
def ProfileFlags.ENTERPRISE : ProfileFlags :=
  { drop_enabled := true, bloom_drop := true
    benign_sampling := true, latency_adaptive_security := true }

/-- `AdaptiveCircuitBreaker` (`reducers.rs`): the ten atomic latency
buckets become a `List Nat` of length 10. -/
structure AdaptiveCircuitBreaker where
  state : Nat
  failure_count : Nat
  last_failure_time : Nat
  latency_buckets : List Nat
  degradation_level : Nat
  profile : ProfileFlags
deriving DecidableEq, Repr

namespace AdaptiveCircuitBreaker

/-- `AdaptiveCircuitBreaker::new` (`reducers.rs`). -/
def new (profile : ProfileFlags) : AdaptiveCircuitBreaker :=
  { state := 0, failure_count := 0, last_failure_time := 0
    latency_buckets := List.replicate 10 0
    degradation_level := 0, profile := profile }

/-- `AdaptiveCircuitBreaker::record_latency` (`reducers.rs`): bucket
index is `latency_ms` clamped to 9. -/
def record_latency (cb : AdaptiveCircuitBreaker) (latency_ms : Nat) :
    AdaptiveCircuitBreaker :=
  let bucket_idx := if latency_ms < 10 then latency_ms else 9
  let b' := cb.latency_buckets.set bucket_idx (cb.latency_buckets.getD bucket_idx 0 + 1)
  { cb with latency_buckets := b' }

/-- The cumulative scan loop of `adaptive_threshold` (`reducers.rs`):
walk the buckets keeping a running index and cumulative count; return
the index at which the cumulative count first reaches `target`, or the
fall-through value 10. -/
def p95_scan : List Nat → Nat → Nat → Nat → Nat
  | [], _, _, _ => 10
  | b :: bs, idx, cumulative, target =>
      let c := cumulative + b
      if target ≤ c then idx else p95_scan bs (idx + 1) c target

/-- `AdaptiveCircuitBreaker::adaptive_threshold` (`reducers.rs`).  The
Rust code computes `(total as f64 * 0.95) as usize`; for the `usize`
totals the histogram can hold this float expression equals
`⌊19 · total / 20⌋`, which is how it is modelled. -/
def adaptive_threshold (cb : AdaptiveCircuitBreaker) : Nat :=
  let total := cb.latency_buckets.sum
  if total = 0 then 5
  else p95_scan cb.latency_buckets 0 0 (19 * total / 20)

end AdaptiveCircuitBreaker

-- ============================================================================
-- `detect_threats` entry point (`lib.rs`, python_bindings)
-- ============================================================================

/-- The fields of the `ThreatEvent` that `detect_threats` copies into its
result dictionary (`lib.rs`). -/
structure ThreatInfo where
  severity : String
  event_type : String
  description : String
deriving DecidableEq, Repr

/-- The result dictionary built by `detect_threats` (`lib.rs`). -/
structure DetectOutput where
  protocol : String
  is_noise : Bool
  latency_ms : Nat
  threat : Option ThreatInfo
deriving DecidableEq, Repr

/-- The `1_000_000` payload limit of `detect_threats_py` (`lib.rs`). -/
def PAYLOAD_LIMIT : Nat := 1000000

/-- `detect_threats_py` (`lib.rs`), control-flow skeleton.  The deep
analyzer `protocol::analyze_for_threats` is out of the Layer-0 core
(spec §1) and the noise matcher's Aho–Corasick hit is a black box here,
so the analysis outcome `analysis`, its measured duration
`analysis_duration` and the noise hint `noise_hint` are parameters;
everything that touches the circuit breaker and the early returns is
modelled from the source.  Returns the Python-level result together
with the breaker's final state. -/
def detect_threats (cb : CircuitBreaker) (payload : List Nat) (now : Nat)
    (noise_hint : Bool) (analysis : Option ThreatInfo)
    (analysis_duration : Nat) :
    Except String (Option DetectOutput) × CircuitBreaker :=
  let allowed := cb.check_allow now
  if !allowed.1 then (.ok none, allowed.2)
  else if PAYLOAD_LIMIT < payload.length then
    (.error "Payload too large for threat detection", allowed.2)
  else
    let proto_guess := classify_protocol_fast payload
    let cb' := allowed.2.record_result analysis_duration now
    if analysis.isNone && !noise_hint then (.ok none, cb')
    else
      (.ok (some { protocol := proto_guess.as_str
                   is_noise := noise_hint
                   latency_ms := analysis_duration
                   threat := analysis }), cb')

-- ============================================================================
-- Helper definitions used by the statements below
-- ============================================================================

/-- 1 if the duration counts as a failure for the breaker
(`duration > LATENCY_THRESHOLD_MS`), else 0. -/
def fail_weight (d : Nat) : Nat := if LATENCY_THRESHOLD_MS < d then 1 else 0

/-- Fold a list of `(duration, now)` events through
`CircuitBreaker::record_result`. -/
def run_results (evs : List (Nat × Nat)) (cb : CircuitBreaker) : CircuitBreaker :=
  evs.foldl (fun c e => c.record_result e.1 e.2) cb

/-- Number of threshold-exceeding latencies in a list of
`(duration, now)` events. -/
def failures (evs : List (Nat × Nat)) : Nat :=
  (evs.filter (fun e => decide (LATENCY_THRESHOLD_MS < e.1))).length

/-- An adaptive breaker that has recorded exactly one latency, of 9 ms:
its histogram is `[0,0,0,0,0,0,0,0,0,1]`. -/
def acb_single_slow : AdaptiveCircuitBreaker :=
  (AdaptiveCircuitBreaker.new ProfileFlags.HOME).record_latency 9

-- ============================================================================
-- Generic helper lemmas
-- ============================================================================

lemma length_le_of_take_eq {d l : List Nat} {n : Nat} (h : d.take n = l)
    (hl : l.length = n) : n ≤ d.length := by
  have hh := congrArg List.length h
  rw [List.length_take, hl] at hh
  omega

lemma length_filter_lt {α : Type} (p : α → Bool) (l : List α) (a : α)
    (ha : a ∈ l) (hp : p a = false) :
    (l.filter p).length < l.length := by
  induction l with
  | nil => cases ha
  | cons b bs ih =>
      rcases List.mem_cons.mp ha with rfl | hb
      · rw [List.filter_cons_of_neg (by simp [hp])]
        exact Nat.lt_succ_of_le (List.length_filter_le p bs)
      · cases hpb : p b
        · rw [List.filter_cons_of_neg (by simp [hpb])]
          exact Nat.lt_succ_of_lt (ih hb)
        · rw [List.filter_cons_of_pos (by simp [hpb])]
          simpa using Nat.succ_lt_succ (ih hb)

-- ============================================================================
-- C1: the 3-lane router
-- ============================================================================

/-- C1: `route_payload` returns `Mirror` iff `score ≥ 50` or the
`EXPLOIT_HINT` tag is set; otherwise `SlowFake` iff `score ≥ 20` or a
`PROTO_UNKNOWN`/`ODD_CADENCE` tag is set; otherwise `FastFake`.  In
particular a set `EXPLOIT_HINT` tag forces `Mirror`. -/
theorem claim_C1_route_payload (proto : Protocol) (score tags : Nat) :
    (route_payload proto score tags = .Mirror ↔
      (50 ≤ score ∨ tags &&& Tags.EXPLOIT_HINT ≠ 0)) ∧
    (route_payload proto score tags = .SlowFake ↔
      (¬(50 ≤ score ∨ tags &&& Tags.EXPLOIT_HINT ≠ 0) ∧
        (20 ≤ score ∨ tags &&& (Tags.PROTO_UNKNOWN ||| Tags.ODD_CADENCE) ≠ 0))) ∧
    (route_payload proto score tags = .FastFake ↔
      (¬(50 ≤ score ∨ tags &&& Tags.EXPLOIT_HINT ≠ 0) ∧
        ¬(20 ≤ score ∨ tags &&& (Tags.PROTO_UNKNOWN ||| Tags.ODD_CADENCE) ≠ 0))) ∧
    (tags &&& Tags.EXPLOIT_HINT ≠ 0 → route_payload proto score tags = .Mirror) := by
  unfold route_payload
  by_cases h1 : 50 ≤ score ∨ tags &&& Tags.EXPLOIT_HINT ≠ 0 <;>
    by_cases h2 : 20 ≤ score ∨
        tags &&& (Tags.PROTO_UNKNOWN ||| Tags.ODD_CADENCE) ≠ 0 <;>
    simp [h1, h2] <;> tauto

/-- Witness for C1 at a concrete input: the `EXPLOIT_HINT` bit alone
routes to `Mirror`. -/
theorem claim_C1_witness : route_payload .HTTP 0 4 = .Mirror :=
  (claim_C1_route_payload .HTTP 0 4).2.2.2 (by decide)

-- ============================================================================
-- C4: the protocol classifier
-- ============================================================================

/-- C4: `classify_protocol_fast` implements exactly the ordered prefix
table of the specification (`classify_spec_table`): empty input gives
`Unknown`; `"SSH-"` gives SSH; else an HTTP method 3-byte prefix gives
HTTP; else an FTP command gives FTP; else an SMTP command gives SMTP;
everything else gives `Unknown`.  Both sides are pure total functions,
so the same input always yields the same output. -/
theorem claim_C4_classify (data : List Nat) :
    classify_protocol_fast data = classify_spec_table data := by
  have hssh : (4 ≤ data.length ∧ data.take 4 = [83, 83, 72, 45]) ↔
      data.take 4 = [83, 83, 72, 45] :=
    ⟨fun h => h.2, fun h => ⟨length_le_of_take_eq h rfl, h⟩⟩
  have hhttp : (3 ≤ data.length ∧
      (data.take 3 = [71, 69, 84] ∨ data.take 3 = [80, 79, 83] ∨
       data.take 3 = [80, 85, 84] ∨ data.take 3 = [68, 69, 76] ∨
       data.take 3 = [72, 69, 65] ∨ data.take 3 = [79, 80, 84])) ↔
      (data.take 3 = [71, 69, 84] ∨ data.take 3 = [80, 79, 83] ∨
       data.take 3 = [80, 85, 84] ∨ data.take 3 = [68, 69, 76] ∨
       data.take 3 = [72, 69, 65] ∨ data.take 3 = [79, 80, 84]) := by
    refine ⟨fun h => h.2, fun h => ⟨?_, h⟩⟩
    rcases h with h | h | h | h | h | h <;> exact length_le_of_take_eq h rfl
  have hftp : (4 ≤ data.length ∧
      (data.take 4 = [85, 83, 69, 82] ∨ data.take 4 = [80, 65, 83, 83] ∨
       data.take 4 = [81, 85, 73, 84] ∨ data.take 4 = [82, 69, 84, 82])) ↔
      (data.take 4 = [85, 83, 69, 82] ∨ data.take 4 = [80, 65, 83, 83] ∨
       data.take 4 = [81, 85, 73, 84] ∨ data.take 4 = [82, 69, 84, 82]) := by
    refine ⟨fun h => h.2, fun h => ⟨?_, h⟩⟩
    rcases h with h | h | h | h <;> exact length_le_of_take_eq h rfl
  have hsmtp : (4 ≤ data.length ∧
      (data.take 4 = [72, 69, 76, 79] ∨ data.take 4 = [69, 72, 76, 79] ∨
       data.take 4 = [77, 65, 73, 76])) ↔
      (data.take 4 = [72, 69, 76, 79] ∨ data.take 4 = [69, 72, 76, 79] ∨
       data.take 4 = [77, 65, 73, 76]) := by
    refine ⟨fun h => h.2, fun h => ⟨?_, h⟩⟩
    rcases h with h | h | h <;> exact length_le_of_take_eq h rfl
  unfold classify_protocol_fast classify_spec_table
  simp only [List.length_eq_zero, hssh, hhttp, hftp, hsmtp]

-- ============================================================================
-- C7: canned reply strings
-- ============================================================================

/-- C7: the shipped canned replies are bit-exact: `boring_failure_response`
per protocol, and `boring_noise_response` per pattern-index group
(0–4 scanner, 5–9 exploit, 10–14 spray, all other indices). -/
theorem claim_C7_canned_strings :
    boring_failure_response .HTTP = "HTTP/1.0 400 Bad Request\r\n\r\n" ∧
    boring_failure_response .FTP = "500 Syntax error, command unrecognized.\r\n" ∧
    boring_failure_response .SMTP = "500 Syntax error, command unrecognized\r\n" ∧
    boring_failure_response .SSH = "" ∧
    boring_failure_response .Unknown = "" ∧
    ∀ idx : Nat,
      (idx ≤ 4 →
        NoiseDetector.boring_noise_response idx = "Connection timed out\n") ∧
      (5 ≤ idx → idx ≤ 9 →
        NoiseDetector.boring_noise_response idx =
          "Segmentation fault (core dumped)\n") ∧
      (10 ≤ idx → idx ≤ 14 →
        NoiseDetector.boring_noise_response idx = "Authentication failed\n") ∧
      (15 ≤ idx →
        NoiseDetector.boring_noise_response idx = "Bad request\n") := by
  refine ⟨rfl, rfl, rfl, rfl, rfl, fun idx => ?_⟩
  unfold NoiseDetector.boring_noise_response
  refine ⟨fun h4 => ?_, fun h5 h9 => ?_, fun h10 h14 => ?_, fun h15 => ?_⟩
  · rw [if_pos h4]
  · rw [if_neg (by omega), if_pos h9]
  · rw [if_neg (by omega), if_neg (by omega), if_pos h14]
  · rw [if_neg (by omega), if_neg (by omega), if_neg (by omega)]

/-- Witness for C7 at a concrete index: index 7 (exploit group). -/
theorem claim_C7_witness :
    NoiseDetector.boring_noise_response 7 =
      "Segmentation fault (core dumped)\n" :=
  (claim_C7_canned_strings.2.2.2.2.2 7).2.1 (by decide) (by decide)

-- ============================================================================
-- C8: suspicion score saturation and monotonicity
-- ============================================================================

/-- C8: `add_score` sets the score to `min (old + p) 255`, which never
decreases it (for a score in `u8` range) and never exceeds 255, and a
whole sequence of `add_score` calls can neither decrease the score nor
push it above 255. -/
theorem claim_C8_add_score (o : Layer0Output) (p : Nat) (ps : List Nat)
    (h : o.suspicion_score ≤ 255) :
    (o.add_score p).suspicion_score = min (o.suspicion_score + p) 255 ∧
    o.suspicion_score ≤ (o.add_score p).suspicion_score ∧
    (o.add_score p).suspicion_score ≤ 255 ∧
    o.suspicion_score ≤ (ps.foldl Layer0Output.add_score o).suspicion_score ∧
    (ps.foldl Layer0Output.add_score o).suspicion_score ≤ 255 := by
  have step : ∀ (x : Layer0Output) (q : Nat), x.suspicion_score ≤ 255 →
      x.suspicion_score ≤ (x.add_score q).suspicion_score ∧
      (x.add_score q).suspicion_score ≤ 255 := by
    intro x q hx
    simp only [Layer0Output.add_score, u8_saturating_add]
    omega
  have fold : ∀ (qs : List Nat) (x : Layer0Output), x.suspicion_score ≤ 255 →
      x.suspicion_score ≤ (qs.foldl Layer0Output.add_score x).suspicion_score ∧
      (qs.foldl Layer0Output.add_score x).suspicion_score ≤ 255 := by
    intro qs
    induction qs with
    | nil => exact fun x hx => ⟨Nat.le_refl _, hx⟩
    | cons q qs ih =>
        intro x hx
        have hs := step x q hx
        have ht := ih (x.add_score q) hs.2
        exact ⟨Nat.le_trans hs.1 ht.1, ht.2⟩
  refine ⟨rfl, (step o p h).1, (step o p h).2, (fold ps o h).1, (fold ps o h).2⟩

/-- Witness for C8 at a concrete input: score 0, one +40 bump, then a
sequence `[40, 255]` that saturates. -/
theorem claim_C8_witness :
    ((Layer0Output.new .HTTP).add_score 40).suspicion_score = min (0 + 40) 255 ∧
    ([40, 255].foldl Layer0Output.add_score (Layer0Output.new .HTTP)).suspicion_score ≤ 255 := by
  have h := claim_C8_add_score (Layer0Output.new .HTTP) 40 [40, 255] (by decide)
  exact ⟨h.1, h.2.2.2.2⟩

-- ============================================================================
-- C10: RateStats window of size zero
-- ============================================================================

/-- C10: `RateStats::new` accepts `window_size = 0` (zero-slot buffer),
`record` panics (modelled as `none`) exactly when `window_size = 0`,
and under `window_size > 0` it writes at index
`write_idx % window_size < window_size`. -/
theorem claim_C10_rate_stats_record (w now : Nat) (s : RateStats) :
    (RateStats.new 0).window_size = 0 ∧
    (RateStats.new w).requests.length = w ∧
    (s.record now = none ↔ s.window_size = 0) ∧
    (0 < s.window_size →
      s.record now = some { s with
          requests := s.requests.set (s.write_idx % s.window_size) now
          write_idx := s.write_idx + 1 } ∧
      s.write_idx % s.window_size < s.window_size) := by
  refine ⟨rfl, by simp [RateStats.new], ?_, ?_⟩
  · unfold RateStats.record
    by_cases h0 : s.window_size = 0
    · simp [h0]
    · simp [h0]
  · intro hpos
    have h0 : ¬s.window_size = 0 := by omega
    unfold RateStats.record
    rw [if_neg h0]
    exact ⟨rfl, Nat.mod_lt _ hpos⟩

/-- Witness for C10 at a concrete input: a 2-slot window writes slot 0. -/
theorem claim_C10_witness :
    (RateStats.new 2).record 7 =
      some { requests := [7, 0], write_idx := 1, window_size := 2 } ∧
    0 % 2 < 2 :=
  (claim_C10_rate_stats_record 2 7 (RateStats.new 2)).2.2.2 (by decide)

-- ============================================================================
-- C2: breaker behaviour in Closed state
-- ============================================================================

lemma failures_cons (e : Nat × Nat) (es : List (Nat × Nat)) :
    failures (e :: es) = fail_weight e.1 + failures es := by
  unfold failures fail_weight
  by_cases h : LATENCY_THRESHOLD_MS < e.1
  · rw [List.filter_cons_of_pos (by simpa using h)]
    simp [h, Nat.add_comm]
  · rw [List.filter_cons_of_neg (by simpa using h)]
    simp [h]

lemma breaker_step_inv (cb : CircuitBreaker) (d now k : Nat)
    (h1 : cb.failure_count ≤ k)
    (h2 : cb.state ≠ .Closed → FAILURE_THRESHOLD ≤ k) :
    (cb.record_result d now).failure_count ≤ k + fail_weight d ∧
    ((cb.record_result d now).state ≠ .Closed →
      FAILURE_THRESHOLD ≤ k + fail_weight d) := by
  obtain ⟨st, fc, lt⟩ := cb
  simp only [CircuitBreaker.record_result, fail_weight]
  by_cases hd : LATENCY_THRESHOLD_MS < d
  · rw [if_pos hd, if_pos hd]
    cases st with
    | Closed =>
        simp only [CircuitBreaker.handle_failure, CircuitBreaker.trip_circuit]
        by_cases ht : FAILURE_THRESHOLD ≤ fc + 1
        · rw [if_pos ht]
          simp only at h1 ⊢
          exact ⟨by omega, fun _ => by omega⟩
        · rw [if_neg ht]
          simp only at h1 ⊢
          exact ⟨by omega, fun hh => absurd rfl hh⟩
    | HalfOpen =>
        have hk := h2 (by simp)
        simp only [CircuitBreaker.handle_failure, CircuitBreaker.trip_circuit]
        exact ⟨by simp only at h1 ⊢; omega, fun _ => by omega⟩
    | Open =>
        have hk := h2 (by simp)
        simp only [CircuitBreaker.handle_failure]
        exact ⟨by simp only at h1 ⊢; omega, fun _ => by omega⟩
  · rw [if_neg hd, if_neg hd]
    cases st with
    | Closed =>
        simp only [CircuitBreaker.handle_success]
        exact ⟨by omega, fun hh => absurd rfl hh⟩
    | HalfOpen =>
        simp only [CircuitBreaker.handle_success, CircuitBreaker.reset_circuit]
        exact ⟨by omega, fun hh => absurd rfl hh⟩
    | Open =>
        have hk := h2 (by simp)
        simp only [CircuitBreaker.handle_success]
        exact ⟨by simp only at h1 ⊢; omega, fun _ => by omega⟩

lemma breaker_run_inv (evs : List (Nat × Nat)) (cb : CircuitBreaker) (k : Nat)
    (h1 : cb.failure_count ≤ k)
    (h2 : cb.state ≠ .Closed → FAILURE_THRESHOLD ≤ k) :
    (run_results evs cb).failure_count ≤ k + failures evs ∧
    ((run_results evs cb).state ≠ .Closed →
      FAILURE_THRESHOLD ≤ k + failures evs) := by
  induction evs generalizing cb k with
  | nil =>
      unfold run_results failures
      simpa using ⟨h1, h2⟩
  | cons e es ih =>
      have step := breaker_step_inv cb e.1 e.2 k h1 h2
      have tail := ih (cb.record_result e.1 e.2) (k + fail_weight e.1)
        step.1 step.2
      have hrw : run_results (e :: es) cb =
          run_results es (cb.record_result e.1 e.2) := rfl
      rw [hrw, failures_cons]
      exact ⟨by have := tail.1; omega, fun hh => by have := tail.2 hh; omega⟩

/-- C2: in `Closed`, a result within `LATENCY_THRESHOLD_MS` resets the
failure count to 0 and keeps the state `Closed`; a slower result
increments the count, and the breaker trips to `Open` (stamping
`last_failure_time := now`) exactly when the incremented count reaches
`FAILURE_THRESHOLD`; moreover, starting from `CircuitBreaker::new`, no
sequence of recorded results ever reaches `Open` with fewer than
`FAILURE_THRESHOLD` threshold-exceeding latencies. -/
theorem claim_C2_breaker_closed (cb : CircuitBreaker) (d now : Nat)
    (hc : cb.state = .Closed) :
    (d ≤ LATENCY_THRESHOLD_MS →
      cb.record_result d now = { cb with failure_count := 0 }) ∧
    (LATENCY_THRESHOLD_MS < d →
      (cb.record_result d now).failure_count = cb.failure_count + 1 ∧
      ((cb.record_result d now).state = .Open ↔
        FAILURE_THRESHOLD ≤ cb.failure_count + 1) ∧
      ((cb.record_result d now).state ≠ .Open →
        (cb.record_result d now).state = .Closed) ∧
      (FAILURE_THRESHOLD ≤ cb.failure_count + 1 →
        (cb.record_result d now).last_failure_time = now)) ∧
    (∀ evs : List (Nat × Nat),
      (run_results evs CircuitBreaker.new).state = .Open →
      FAILURE_THRESHOLD ≤ failures evs) := by
  obtain ⟨st, fc, lt⟩ := cb
  simp only at hc
  subst hc
  refine ⟨fun hd => ?_, fun hd => ?_, fun evs hopen => ?_⟩
  · simp only [CircuitBreaker.record_result, if_neg (by omega : ¬LATENCY_THRESHOLD_MS < d),
      CircuitBreaker.handle_success]
  · simp only [CircuitBreaker.record_result, if_pos hd, CircuitBreaker.handle_failure,
      CircuitBreaker.trip_circuit]
    by_cases ht : FAILURE_THRESHOLD ≤ fc + 1
    · rw [if_pos ht]
      refine ⟨rfl, by simpa using ht, ?_, fun _ => rfl⟩
      intro hno
      exact absurd rfl hno
    · rw [if_neg ht]
      refine ⟨rfl, ?_, fun _ => rfl, fun hh => absurd hh ht⟩
      constructor
      · intro h
        cases h
      · intro h
        exact absurd h ht
  · have inv := breaker_run_inv evs CircuitBreaker.new 0 (Nat.le_refl 0)
      (fun hh => absurd rfl hh)
    have := inv.2 (by rw [hopen]; simp)
    omega

/-- Witness for C2 at a concrete input: a breaker in `Closed` with
failure count 9 trips to `Open` on the 10th slow result, and a trace of
ten slow results from `new` indeed shows ten failures. -/
theorem claim_C2_witness :
    (CircuitBreaker.record_result ⟨.Closed, 9, 0⟩ 6 42).failure_count = 9 + 1 ∧
    FAILURE_THRESHOLD ≤ failures (List.replicate 10 (6, 42)) :=
  ⟨((claim_C2_breaker_closed ⟨.Closed, 9, 0⟩ 6 42 rfl).2.1 (by decide)).1,
    (claim_C2_breaker_closed ⟨.Closed, 9, 0⟩ 6 42 rfl).2.2
      (List.replicate 10 (6, 42)) (by decide)⟩

-- ============================================================================
-- C3: breaker behaviour in Open and HalfOpen states
-- ============================================================================

/-- C3: in `Open`, `check_allow` denies while
`now < last_failure_time + RESET_TIMEOUT_MS`; once the timeout expires
the (sequentially modelled) CAS winner is allowed through and the state
becomes `HalfOpen`; in `HalfOpen`, a recorded success resets to `Closed`
with zero failures and a recorded failure trips back to `Open`,
refreshing `last_failure_time`. -/
theorem claim_C3_breaker_open (cb : CircuitBreaker) (now d now2 : Nat) :
    (cb.state = .Open → now < cb.last_failure_time + RESET_TIMEOUT_MS →
      cb.check_allow now = (false, cb)) ∧
    (cb.state = .Open → cb.last_failure_time + RESET_TIMEOUT_MS ≤ now →
      cb.check_allow now = (true, { cb with state := .HalfOpen })) ∧
    (cb.state = .HalfOpen → d ≤ LATENCY_THRESHOLD_MS →
      cb.record_result d now2 = { cb with state := .Closed, failure_count := 0 }) ∧
    (cb.state = .HalfOpen → LATENCY_THRESHOLD_MS < d →
      cb.record_result d now2 =
        { cb with state := .Open, last_failure_time := now2 }) := by
  obtain ⟨st, fc, lt⟩ := cb
  refine ⟨fun hs hlt => ?_, fun hs hge => ?_, fun hs hd => ?_, fun hs hd => ?_⟩ <;>
    simp only at hs <;> subst hs
  · have hlt' : now < lt + RESET_TIMEOUT_MS := hlt
    simp only [CircuitBreaker.check_allow]
    rw [if_neg (by omega)]
  · have hge' : lt + RESET_TIMEOUT_MS ≤ now := hge
    simp only [CircuitBreaker.check_allow]
    rw [if_pos hge']
  · simp only [CircuitBreaker.record_result,
      if_neg (by omega : ¬LATENCY_THRESHOLD_MS < d),
      CircuitBreaker.handle_success, CircuitBreaker.reset_circuit]
  · simp only [CircuitBreaker.record_result, if_pos hd,
      CircuitBreaker.handle_failure, CircuitBreaker.trip_circuit]

/-- Witness for C3 at a concrete input: an expired `Open` breaker lets
the caller through and moves to `HalfOpen`. -/
theorem claim_C3_witness :
    CircuitBreaker.check_allow ⟨.Open, 10, 0⟩ 30000 =
      (true, ⟨.HalfOpen, 10, 0⟩) :=
  (claim_C3_breaker_open ⟨.Open, 10, 0⟩ 30000 0 0).2.1 rfl (by decide)

-- ============================================================================
-- C9: oversize payload in detect_threats
-- ============================================================================

lemma check_allow_preserves_stats (cb : CircuitBreaker) (now : Nat) :
    (cb.check_allow now).2.failure_count = cb.failure_count ∧
    (cb.check_allow now).2.last_failure_time = cb.last_failure_time := by
  obtain ⟨st, fc, lt⟩ := cb
  cases st
  · exact ⟨rfl, rfl⟩
  · by_cases h : lt + RESET_TIMEOUT_MS ≤ now <;>
      constructor <;> simp [CircuitBreaker.check_allow, h]
  · exact ⟨rfl, rfl⟩

/-- C9: when the breaker admits the call and the payload exceeds
1,000,000 bytes, `detect_threats` fails with the input-too-large error,
records no latency (the returned breaker is exactly the post-`check_allow`
one: same failure count and same `last_failure_time` as before the call),
and the outcome does not depend on the analysis stage at all. -/
theorem claim_C9_oversize (cb : CircuitBreaker) (payload : List Nat)
    (now : Nat) (nh : Bool) (an : Option ThreatInfo) (ad : Nat)
    (hallow : (cb.check_allow now).1 = true)
    (hbig : PAYLOAD_LIMIT < payload.length) :
    detect_threats cb payload now nh an ad =
      (.error "Payload too large for threat detection", (cb.check_allow now).2) ∧
    (detect_threats cb payload now nh an ad).2.failure_count = cb.failure_count ∧
    (detect_threats cb payload now nh an ad).2.last_failure_time =
      cb.last_failure_time ∧
    (∀ (nh' : Bool) (an' : Option ThreatInfo) (ad' : Nat),
      detect_threats cb payload now nh' an' ad' =
        detect_threats cb payload now nh an ad) := by
  have herr : ∀ (nhx : Bool) (anx : Option ThreatInfo) (adx : Nat),
      detect_threats cb payload now nhx anx adx =
        (.error "Payload too large for threat detection", (cb.check_allow now).2) := by
    intro nhx anx adx
    simp only [detect_threats, hallow, Bool.not_true, Bool.false_eq_true,
      if_false]
    rw [if_pos hbig]
  have hp := check_allow_preserves_stats cb now
  refine ⟨herr nh an ad, ?_, ?_, fun nh' an' ad' => ?_⟩
  · rw [herr nh an ad]; exact hp.1
  · rw [herr nh an ad]; exact hp.2
  · rw [herr nh' an' ad', herr nh an ad]

/-- Witness for C9 at a concrete input: a fresh breaker and a payload of
1,000,001 zero bytes produce the error and leave the breaker untouched. -/
theorem claim_C9_witness :
    (detect_threats CircuitBreaker.new (List.replicate 1000001 0) 3 false
        none 0).2.failure_count = CircuitBreaker.new.failure_count :=
  (claim_C9_oversize CircuitBreaker.new (List.replicate 1000001 0) 3 false
      none 0 rfl (by rw [List.length_replicate]; norm_num [PAYLOAD_LIMIT])).2.1


-- ============================================================================
-- C5: verdict cache size bound and staleness
-- ============================================================================

lemma get_eq_some {c : VerdictCache} {key now : Nat} {vv : Verdict} {ts : Nat}
    (hl : c.cache.lookup key = some (vv, ts)) :
    c.get key now =
      if u64_sub now ts < c.ttl_ms then (some vv, c)
      else (none, { c with cache := c.cache.filter (fun e => e.1 ≠ key) }) := by
  unfold VerdictCache.get
  rw [hl]

lemma get_eq_none {c : VerdictCache} {key now : Nat}
    (hl : c.cache.lookup key = none) :
    c.get key now = (none, c) := by
  unfold VerdictCache.get
  rw [hl]

lemma oldest_entry_cons_none {a : Nat × Verdict × Nat}
    {as : List (Nat × Verdict × Nat)}
    (h : VerdictCache.oldest_entry as = none) :
    VerdictCache.oldest_entry (a :: as) = some a := by
  unfold VerdictCache.oldest_entry
  rw [h]

lemma oldest_entry_cons_some {a e' : Nat × Verdict × Nat}
    {as : List (Nat × Verdict × Nat)}
    (h : VerdictCache.oldest_entry as = some e') :
    VerdictCache.oldest_entry (a :: as) =
      if a.2.2 ≤ e'.2.2 then some a else some e' := by
  unfold VerdictCache.oldest_entry
  rw [h]

lemma oldest_entry_mem {l : List (Nat × Verdict × Nat)} {e : Nat × Verdict × Nat}
    (h : VerdictCache.oldest_entry l = some e) : e ∈ l := by
  induction l generalizing e with
  | nil => simp [VerdictCache.oldest_entry] at h
  | cons a as ih =>
      cases ha : VerdictCache.oldest_entry as with
      | none =>
          rw [oldest_entry_cons_none ha] at h
          injection h with h
          subst h
          exact List.mem_cons_self _ _
      | some e' =>
          rw [oldest_entry_cons_some ha] at h
          by_cases hle : a.2.2 ≤ e'.2.2
          · rw [if_pos hle] at h
            injection h with h
            subst h
            exact List.mem_cons_self _ _
          · rw [if_neg hle] at h
            injection h with h
            subst h
            exact List.mem_cons_of_mem a (ih ha)

lemma oldest_entry_isSome (a : Nat × Verdict × Nat)
    (as : List (Nat × Verdict × Nat)) :
    ∃ e, VerdictCache.oldest_entry (a :: as) = some e := by
  cases ha : VerdictCache.oldest_entry as with
  | none => exact ⟨a, oldest_entry_cons_none ha⟩
  | some e' =>
      by_cases h : a.2.2 ≤ e'.2.2
      · exact ⟨a, by rw [oldest_entry_cons_some ha, if_pos h]⟩
      · exact ⟨e', by rw [oldest_entry_cons_some ha, if_neg h]⟩

lemma set_size (c : VerdictCache) (key : Nat) (v : Verdict) (now : Nat)
    (h : c.cache.length ≤ max c.max_size 1) :
    (c.set key v now).cache.length ≤ max c.max_size 1 := by
  simp only [VerdictCache.set]
  by_cases hcap : c.max_size ≤ c.cache.length
  · rw [if_pos hcap]
    cases hc : c.cache with
    | nil =>
        have hnone : VerdictCache.oldest_entry ([] : List (Nat × Verdict × Nat)) = none := rfl
        rw [hnone]
        show 1 ≤ max c.max_size 1
        exact le_max_right _ _
    | cons a as =>
        rw [hc] at h
        obtain ⟨e, he⟩ := oldest_entry_isSome a as
        rw [he]
        have hmem : e ∈ a :: as := oldest_entry_mem he
        have h1 : ((a :: as).filter (fun x => decide (x.1 ≠ e.1))).length <
            (a :: as).length :=
          length_filter_lt _ _ e hmem (by simp)
        have h2 := List.length_filter_le (fun x => decide (x.1 ≠ key))
          ((a :: as).filter (fun x => decide (x.1 ≠ e.1)))
        rw [List.length_append]
        simp only [List.length_cons] at h h1 ⊢
        simp only [List.length_nil]
        omega
  · rw [if_neg hcap]
    have h2 := List.length_filter_le (fun x => decide (x.1 ≠ key)) c.cache
    rw [List.length_append]
    simp only [List.length_cons, List.length_nil]
    omega

lemma get_size (c : VerdictCache) (key now : Nat) :
    (c.get key now).2.cache.length ≤ c.cache.length ∧
    (c.get key now).2.max_size = c.max_size := by
  cases hl : c.cache.lookup key with
  | none =>
      rw [get_eq_none hl]
      exact ⟨Nat.le_refl _, rfl⟩
  | some p =>
      obtain ⟨vv, ts⟩ := p
      rw [get_eq_some hl]
      by_cases hf : u64_sub now ts < c.ttl_ms
      · rw [if_pos hf]
        exact ⟨Nat.le_refl _, rfl⟩
      · rw [if_neg hf]
        exact ⟨List.length_filter_le _ _, rfl⟩

lemma apply_op_inv (c : VerdictCache) (op : VerdictCache.Op)
    (h : c.cache.length ≤ max c.max_size 1) :
    (c.apply_op op).cache.length ≤ max c.max_size 1 ∧
    (c.apply_op op).max_size = c.max_size := by
  cases op with
  | get key now =>
      have hg := get_size c key now
      exact ⟨Nat.le_trans hg.1 h, hg.2⟩
  | set key v now =>
      refine ⟨set_size c key v now h, ?_⟩
      simp only [VerdictCache.apply_op, VerdictCache.set]

lemma fold_ops_inv (ops : List VerdictCache.Op) (c : VerdictCache)
    (h : c.cache.length ≤ max c.max_size 1) :
    (ops.foldl VerdictCache.apply_op c).cache.length ≤ max c.max_size 1 ∧
    (ops.foldl VerdictCache.apply_op c).max_size = c.max_size := by
  induction ops generalizing c with
  | nil => exact ⟨h, rfl⟩
  | cons op ops ih =>
      have hstep := apply_op_inv c op h
      have htail := ih (c.apply_op op) (by rw [hstep.2]; exact hstep.1)
      rw [hstep.2] at htail
      exact ⟨htail.1, htail.2⟩

/-- C5 (amended): after any sequence of `get`/`set` operations starting
from `VerdictCache::new max_size ttl_ms`, the cache size is at most
`max max_size 1` — hence at most `max_size` whenever `max_size ≥ 1`
(`set` still inserts one entry when `max_size = 0`); and `get` never
returns a stale entry: a returned verdict always comes from an entry
with `now - insertion_ts < ttl_ms`, while a stale entry is removed on
access and `none` is returned. -/
theorem claim_C5_cache_amended (max_size ttl : Nat) (ops : List VerdictCache.Op)
    (c : VerdictCache) (key now : Nat) (v : Verdict) :
    ((ops.foldl VerdictCache.apply_op (VerdictCache.new max_size ttl)).cache.length ≤
      max max_size 1) ∧
    (1 ≤ max_size →
      (ops.foldl VerdictCache.apply_op (VerdictCache.new max_size ttl)).cache.length ≤
        max_size) ∧
    ((c.get key now).1 = some v →
      ∃ ts, c.cache.lookup key = some (v, ts) ∧ u64_sub now ts < c.ttl_ms) ∧
    (∀ vv ts, c.cache.lookup key = some (vv, ts) → c.ttl_ms ≤ u64_sub now ts →
      (c.get key now).1 = none ∧ ∀ e ∈ (c.get key now).2.cache, e.1 ≠ key) := by
  have hbound := fold_ops_inv ops (VerdictCache.new max_size ttl)
    (by simp [VerdictCache.new])
  have hms : (VerdictCache.new max_size ttl).max_size = max_size := rfl
  rw [hms] at hbound
  refine ⟨hbound.1, fun h1 => ?_, ?_, ?_⟩
  · have hb := hbound.1
    omega
  · cases hl : c.cache.lookup key with
    | none =>
        rw [get_eq_none hl]
        intro h
        cases h
    | some p =>
        obtain ⟨vv, ts⟩ := p
        rw [get_eq_some hl]
        by_cases hf : u64_sub now ts < c.ttl_ms
        · rw [if_pos hf]
          intro h
          injection h with h
          subst h
          exact ⟨ts, rfl, hf⟩
        · rw [if_neg hf]
          intro h
          cases h
  · intro vv ts hl hstale
    rw [get_eq_some hl, if_neg (by omega)]
    refine ⟨rfl, fun e he => ?_⟩
    have := List.mem_filter.mp he
    simpa using this.2

/-- Witness for C5 at concrete inputs: with `max_size = 2` two inserts
stay within the bound, and a stale entry is not returned. -/
theorem claim_C5_witness :
    ([VerdictCache.Op.set 1 .Boring 0, VerdictCache.Op.set 2 .NeedsL1 1].foldl
        VerdictCache.apply_op (VerdictCache.new 2 1000)).cache.length ≤ 2 ∧
    (({ cache := [(7, Verdict.KnownNoise, 100)], max_size := 2, ttl_ms := 50 :
        VerdictCache }).get 7 200).1 = none :=
  ⟨(claim_C5_cache_amended 2 1000
      [VerdictCache.Op.set 1 .Boring 0, VerdictCache.Op.set 2 .NeedsL1 1]
      (VerdictCache.new 2 1000) 0 0 .Boring).2.1 (by decide),
    ((claim_C5_cache_amended 2 1000 []
        ({ cache := [(7, Verdict.KnownNoise, 100)], max_size := 2, ttl_ms := 50 })
        7 200 .Boring).2.2.2 Verdict.KnownNoise 100 (by decide)
        (by norm_num [u64_sub])).1⟩

/-- Counterexample to C5 as stated: with `max_size = 0` a single `set`
leaves one entry in the cache, so the size exceeds `max_size`. -/
theorem claim_C5_counterexample :
    ((VerdictCache.new 0 1000).set 1 Verdict.Boring 5).cache.length = 1 ∧
    (VerdictCache.new 0 1000).max_size = 0 ∧
    ¬(((VerdictCache.new 0 1000).set 1 Verdict.Boring 5).cache.length ≤
        (VerdictCache.new 0 1000).max_size) := by
  decide

-- ============================================================================
-- C6: adaptive latency threshold (P95 scan)
-- ============================================================================

lemma p95_scan_spec (bs : List Nat) (idx cum t : Nat)
    (hne : bs ≠ []) (ht : t ≤ cum + bs.sum) :
    idx ≤ AdaptiveCircuitBreaker.p95_scan bs idx cum t ∧
    AdaptiveCircuitBreaker.p95_scan bs idx cum t < idx + bs.length ∧
    t ≤ cum + (bs.take (AdaptiveCircuitBreaker.p95_scan bs idx cum t - idx + 1)).sum ∧
    ∀ j, j + 1 ≤ AdaptiveCircuitBreaker.p95_scan bs idx cum t - idx →
      cum + (bs.take (j + 1)).sum < t := by
  induction bs generalizing idx cum with
  | nil => exact absurd rfl hne
  | cons b bs ih =>
      simp only [AdaptiveCircuitBreaker.p95_scan]
      by_cases hb : t ≤ cum + b
      · rw [if_pos hb]
        refine ⟨Nat.le_refl _, by simp only [List.length_cons]; omega, ?_, ?_⟩
        · simp only [Nat.sub_self, List.take_succ_cons, List.take_zero,
            List.sum_cons, List.sum_nil]
          omega
        · intro j hj
          omega
      · rw [if_neg hb]
        have hne2 : bs ≠ [] := by
          intro hb0
          subst hb0
          simp only [List.sum_cons, List.sum_nil] at ht
          omega
        have ht2 : t ≤ (cum + b) + bs.sum := by
          simp only [List.sum_cons] at ht
          omega
        obtain ⟨s1, s2, s3, s4⟩ := ih (idx + 1) (cum + b) hne2 ht2
        set r := AdaptiveCircuitBreaker.p95_scan bs (idx + 1) (cum + b) t with hr
        refine ⟨by omega, by simp only [List.length_cons]; omega, ?_, ?_⟩
        · have hridx : r - idx = (r - (idx + 1)) + 1 := by omega
          rw [hridx, List.take_succ_cons, List.sum_cons]
          omega
        · intro j hj
          cases j with
          | zero =>
              simp only [List.take_succ_cons, List.take_zero, List.sum_cons,
                List.sum_nil]
              omega
          | succ j' =>
              have hj2 : j' + 1 ≤ r - (idx + 1) := by omega
              have := s4 j' hj2
              rw [List.take_succ_cons, List.sum_cons]
              omega

/-- C6 (amended): `adaptive_threshold` returns 5 on an all-empty
histogram; otherwise it returns the smallest bucket index whose
cumulative count reaches `⌊0.95 · total⌋` (the float cast in the Rust
code rounds the percentile count down), an index that always exists
below 10 — but because of the rounding its cumulative count can be zero
and can cover fewer than 95% of the recorded samples. -/
theorem claim_C6_adaptive_threshold_amended (cb : AdaptiveCircuitBreaker)
    (hlen : cb.latency_buckets.length = 10) :
    (cb.latency_buckets.sum = 0 → cb.adaptive_threshold = 5) ∧
    (cb.latency_buckets.sum ≠ 0 →
      cb.adaptive_threshold < 10 ∧
      19 * cb.latency_buckets.sum / 20 ≤
        (cb.latency_buckets.take (cb.adaptive_threshold + 1)).sum ∧
      ∀ j, j < cb.adaptive_threshold →
        (cb.latency_buckets.take (j + 1)).sum <
          19 * cb.latency_buckets.sum / 20) := by
  constructor
  · intro h0
    unfold AdaptiveCircuitBreaker.adaptive_threshold
    rw [if_pos h0]
  · intro hsum
    have hbne : cb.latency_buckets ≠ [] := by
      intro h
      rw [h] at hlen
      simp at hlen
    have hdiv : 19 * cb.latency_buckets.sum / 20 ≤ cb.latency_buckets.sum := by
      have h19 : 19 * cb.latency_buckets.sum ≤ 20 * cb.latency_buckets.sum := by
        omega
      calc 19 * cb.latency_buckets.sum / 20
          ≤ 20 * cb.latency_buckets.sum / 20 := Nat.div_le_div_right h19
        _ = cb.latency_buckets.sum := Nat.mul_div_cancel_left _ (by omega)
    obtain ⟨s1, s2, s3, s4⟩ := p95_scan_spec cb.latency_buckets 0 0
      (19 * cb.latency_buckets.sum / 20) hbne (by omega)
    have hthr : cb.adaptive_threshold =
        AdaptiveCircuitBreaker.p95_scan cb.latency_buckets 0 0
          (19 * cb.latency_buckets.sum / 20) := by
      unfold AdaptiveCircuitBreaker.adaptive_threshold
      rw [if_neg hsum]
    rw [hthr]
    rw [hlen] at s2
    refine ⟨by omega, ?_, ?_⟩
    · simpa using s3
    · intro j hj
      have := s4 j (by omega)
      simpa using this

/-- Witness for C6 at a concrete input: a fresh histogram is empty and
yields the 5 ms default. -/
theorem claim_C6_witness :
    (AdaptiveCircuitBreaker.new ProfileFlags.HOME).adaptive_threshold = 5 :=
  (claim_C6_adaptive_threshold_amended (AdaptiveCircuitBreaker.new ProfileFlags.HOME)
    (by decide)).1 (by decide)

/-- Counterexample to C6 as stated: one single recorded latency of 9 ms
gives the histogram `[0,…,0,1]`; `adaptive_threshold` returns bucket
index 0, whose cumulative count is 0 — not a nonzero cumulative count
covering at least 95% of the one recorded sample. -/
theorem claim_C6_counterexample :
    acb_single_slow.latency_buckets = [0, 0, 0, 0, 0, 0, 0, 0, 0, 1] ∧
    acb_single_slow.latency_buckets.sum = 1 ∧
    acb_single_slow.adaptive_threshold = 0 ∧
    (acb_single_slow.latency_buckets.take
      (acb_single_slow.adaptive_threshold + 1)).sum = 0 := by
  decide

end Apate
